import Mathlib

/-!
# Verification of the dwi_ml batch sampling engine

Shallow embedding of `dwi_ml/training/batch_samplers.py` (class
`DWIMLBatchSampler`).  The dataset (`MultisubjectSubset`) is modelled at its
interface: a total streamline count, one contiguous global-id slice per
subject, and an optional per-streamline length array.  The numpy random
generator owned by the sampler is modelled as an oracle stream of naturals:
each draw consumes one value from the stream, so every random decision is a
deterministic function of the stream, exactly as every random decision of the
source is a deterministic function of the `np.random.RandomState(seed)`
object created in `__init__`.  Streamline lengths (`length_mm`, floats in the
source) and budget quantities are modelled as rationals.  Loops that the
source writes as `while True` are given explicit fuel; running out of fuel is
reported as a distinguished outcome, never silently conflated with normal
termination.  The 4-tuple returned by `_get_a_chunk_of_streamlines` on its
early exit (line 388 of the source) versus the 5-tuple of its normal return
is kept visible in the embedding through the two constructors of `ChunkRet`,
because the 5-name unpacking in `_sample_streamlines_for_subj` turns the
4-tuple into a runtime `ValueError`.
-/

namespace DwiMl

/-! ## Random generator oracle -/

/-- The sampler-owned `np.random.RandomState` is modelled as a stream of
naturals; an exhausted stream keeps producing `0`. -/
abbrev Rng := List Nat

def rngHead (r : Rng) : Nat := r.headD 0

def rngTail (r : Rng) : Rng := r.tail

/-- Models `np_rng.choice(cands, n)` — `n` draws **with replacement**
(the numpy default used at line 391 of the source): each draw consumes one
oracle value and picks the corresponding candidate. -/
def np_choice (cands : List Nat) (n : Nat) (r : Rng) : List Nat × Rng :=
  match n with
  | 0 => ([], r)
  | m + 1 =>
    let pick := cands.getD (rngHead r % cands.length) 0
    let rest := np_choice cands m (rngTail r)
    (pick :: rest.1, rest.2)

/-- Models `np_rng.choice(arange, size=k, replace=False, p=weights)` used for
subject selection (line 224): `k` distinct draws among the candidates of
nonzero weight, one oracle value per draw, in draw order. -/
def np_choice_no_replace (cands : List Nat) (k : Nat) (r : Rng) : List Nat × Rng :=
  match k with
  | 0 => ([], r)
  | k' + 1 =>
    match cands with
    | [] => ([], r)
    | c0 :: cs =>
      let l := c0 :: cs
      let i := rngHead r % l.length
      let c := l.getD i 0
      let rest := np_choice_no_replace (l.eraseIdx i) k' (rngTail r)
      (c :: rest.1, rest.2)

/-! ## Usage mask operations -/

def consumeFrom (pos : Nat) (gids : List Nat) : List Bool → List Bool
  | [] => []
  | b :: bs => (if pos ∈ gids then false else b) :: consumeFrom (pos + 1) gids bs

/-- Models the numpy fancy assignment
`global_unused_streamlines[subbatch_global_ids] = 0` (line 332). -/
def consume (mask : List Bool) (gids : List Nat) : List Bool :=
  consumeFrom 0 gids mask

/-- Models `np.flatnonzero(global_unused_streamlines[subj_slice]) +
subj_slice.start` (lines 379-380): the still-unused global ids inside the
subject's slice, in increasing order. -/
def flatnonzeroSlice (mask : List Bool) (st en : Nat) : List Nat :=
  (List.range mask.length).filter
    (fun i => decide (st ≤ i) && decide (i < en) && mask.getD i false)

/-! ## Data model -/

inductive BatchSizeUnits
  | nb_streamlines
  | length_mm
deriving DecidableEq, Repr

/-- The read-only view the sampler takes of the dataset for one streamline
group: total count, per-subject contiguous slices `[start, end)` in dict
insertion order (subject id = position), and the aligned `length_mm` array. -/
structure MultisubjectSubset where
  total_nb_streamlines : Nat
  streamline_ids_per_subj : List (Nat × Nat)
  streamline_lengths_mm : List ℚ
deriving DecidableEq, Repr

structure DWIMLBatchSampler where
  batch_size : Nat
  batch_size_units : BatchSizeUnits
  nb_streamlines_per_chunk : Nat
  nb_subjects_per_batch : Option Nat
  cycles : Option Nat
  rng : Nat
deriving DecidableEq, Repr

/-- Python truthiness of the optional integer parameters
(`if self.cycles:` / `if self.nb_subjects_per_batch:`). -/
def optTruthy : Option Nat → Bool
  | none => false
  | some n => decide (n ≠ 0)

/-! ## Construction (`__init__`, lines 75-118) -/

/-- Process-global torch RNG state touched by `torch.manual_seed` at line
118 of `__init__`. -/
structure TorchState where
  manual_seed_value : Option Nat
deriving DecidableEq, Repr

def torch_manual_seed (seed : Nat) (_t : TorchState) : TorchState :=
  { manual_seed_value := some seed }

/-- `DWIMLBatchSampler.__init__`: validations in source order.  Note that a
`batch_size_units == 'nb_streamlines'` / `nb_streamlines_per_chunk`
mismatch only triggers `logging.warning(... "Ignored")` (lines 86-90): it is
not an error, and the chunk size is overridden with `batch_size` (line 105).
On success `torch.manual_seed(rng)` mutates the process-global torch state. -/
def DWIMLBatchSampler_init (batch_size : Int) (batch_size_units : String)
    (nb_streamlines_per_chunk : Nat) (rng : Nat)
    (nb_subjects_per_batch : Option Nat) (cycles : Option Nat)
    (torch : TorchState) : Except String DWIMLBatchSampler × TorchState :=
  if batch_size ≤ 0 then
    (.error "batch_size should be a positive integral value", torch)
  else if ¬ (batch_size_units = "nb_streamlines" ∨ batch_size_units = "length_mm") then
    (.error "batch_size_unit should either be nb_streamlines or length_mm", torch)
  else if optTruthy cycles && !optTruthy nb_subjects_per_batch then
    (.error "If cycles is defined, nb_subjects_per_batch should be defined", torch)
  else
    let units : BatchSizeUnits :=
      if batch_size_units = "nb_streamlines" then .nb_streamlines else .length_mm
    let chunk :=
      if batch_size_units = "nb_streamlines" then batch_size.toNat
      else nb_streamlines_per_chunk
    (.ok { batch_size := batch_size.toNat
           batch_size_units := units
           nb_streamlines_per_chunk := chunk
           nb_subjects_per_batch := nb_subjects_per_batch
           cycles := cycles
           rng := rng },
     torch_manual_seed rng torch)

/-! ## Chunk sampling (`_get_a_chunk_of_streamlines`, lines 347-422) -/

/-- `_compute_and_adjust_batch_size` (lines 424-437): per-streamline cost,
`1` in count mode, the `length_mm` lookup in length mode. -/
def compute_and_adjust_batch_size (s : DWIMLBatchSampler)
    (lengths_mm : List ℚ) (chosen_global_ids : List Nat) : List ℚ :=
  match s.batch_size_units with
  | .length_mm => chosen_global_ids.map (fun g => lengths_mm.getD g 0)
  | .nb_streamlines => chosen_global_ids.map (fun _ => (1 : ℚ))

/-- Running cumulative sums starting from `c` (models `np.cumsum`). -/
def cumsumFrom (c : ℚ) : List ℚ → List ℚ
  | [] => []
  | x :: xs => (c + x) :: cumsumFrom (c + x) xs

/-- Models numpy boolean-mask indexing `arr[selected]`. -/
def boolSelect {α : Type} (xs : List α) (sel : List Bool) : List α :=
  ((xs.zip sel).filter (fun p => p.2)).map (fun p => p.1)

/-- The two distinct return shapes of `_get_a_chunk_of_streamlines`: the
early exit at line 388 returns **four** values, the normal exit at line 421
returns **five**. -/
inductive ChunkRet
  | tuple4 (chosen_global_ids chosen_relative_ids : List Nat)
      (no_streamlines_remaining reached_max_heaviness : Bool)
  | tuple5 (chosen_global_ids chosen_relative_ids : List Nat)
      (computed_chunk_size : ℚ)
      (no_streamlines_remaining reached_max_heaviness : Bool)
deriving DecidableEq, Repr

def get_a_chunk_of_streamlines (s : DWIMLBatchSampler) (lengths_mm : List ℚ)
    (subj_slice : Nat × Nat) (mask : List Bool)
    (current_subbatch_size max_subbatch_size : ℚ) (rng : Rng) : ChunkRet × Rng :=
  let subj_unused := flatnonzeroSlice mask subj_slice.1 subj_slice.2
  if subj_unused.length = 0 then
    (.tuple4 [] [] true false, rng)
  else
    let drawn := np_choice subj_unused s.nb_streamlines_per_chunk rng
    let sizes := compute_and_adjust_batch_size s lengths_mm drawn.1
    let t :=
      if max_subbatch_size ≤ current_subbatch_size + sizes.sum then
        let sel := (cumsumFrom 0 sizes).map
          (fun c => decide (c < max_subbatch_size - current_subbatch_size))
        (boolSelect drawn.1 sel, boolSelect sizes sel, true)
      else (drawn.1, sizes, false)
    let rel := t.1.map (fun g => g - subj_slice.1)
    (.tuple5 t.1 rel t.2.1.sum false t.2.2, drawn.2)

/-! ## Per-subject sampling (`_sample_streamlines_for_subj`, lines 282-345) -/

inductive SampleRes
  | ok (sampled_ids : List Nat) (mask : List Bool) (rng : Rng)
  | valueError (mask : List Bool) (rng : Rng)
  | outOfFuel
deriving DecidableEq, Repr

/-- The `while True` loop of `_sample_streamlines_for_subj`, with explicit
fuel.  A `tuple4` from the chunk routine makes the 5-name unpacking at lines
312-317 raise `ValueError`, modelled as `SampleRes.valueError`. -/
def sampleLoopGo (s : DWIMLBatchSampler) (lengths_mm : List ℚ)
    (subj_slice : Nat × Nat) (max_batch_size_per_subj : ℚ) :
    Nat → List Bool → ℚ → List Nat → Rng → SampleRes
  | 0, _, _, _, _ => .outOfFuel
  | fuel + 1, mask, total_subj_batch_size, sampled_ids, rng =>
    match get_a_chunk_of_streamlines s lengths_mm subj_slice mask
        total_subj_batch_size max_batch_size_per_subj rng with
    | (.tuple4 _ _ _ _, rng') => .valueError mask rng'
    | (.tuple5 g r sz noLeft reached, rng') =>
      if noLeft then .ok sampled_ids mask rng'
      else
        let mask' := consume mask g
        let acc' := sampled_ids ++ r
        if reached then .ok acc' mask' rng'
        else sampleLoopGo s lengths_mm subj_slice max_batch_size_per_subj
            fuel mask' (total_subj_batch_size + sz) acc' rng'

def sample_streamlines_for_subj (s : DWIMLBatchSampler) (lengths_mm : List ℚ)
    (ids_per_subjs : List (Nat × Nat)) (subj : Nat)
    (max_batch_size_per_subj : ℚ) (fuel : Nat) (mask : List Bool) (rng : Rng) :
    SampleRes :=
  sampleLoopGo s lengths_mm (ids_per_subjs.getD subj (0, 0))
    max_batch_size_per_subj fuel mask 0 [] rng

/-! ## Epoch iteration (`__iter__`, lines 156-280) -/

abbrev Batch := List (Nat × List Nat)

inductive LoopErr
  | valueError
  | outOfFuel
  | assertError
deriving DecidableEq, Repr

/-- The `for subj in sampled_subjs` loop (lines 255-261): one
`(subj, sampled_ids)` pair is appended for **every** sampled subject, empty
or not. -/
def subjectLoop (s : DWIMLBatchSampler) (lengths_mm : List ℚ)
    (ids_per_subjs : List (Nat × Nat)) (max_batch_size_per_subj : ℚ)
    (ifuel : Nat) :
    List Nat → List Bool → Rng → Except LoopErr (Batch × List Bool × Rng)
  | [], mask, rng => .ok ([], mask, rng)
  | subj :: rest, mask, rng =>
    match sample_streamlines_for_subj s lengths_mm ids_per_subjs subj
        max_batch_size_per_subj ifuel mask rng with
    | .valueError _ _ => .error .valueError
    | .outOfFuel => .error .outOfFuel
    | .ok ids mask' rng' =>
      match subjectLoop s lengths_mm ids_per_subjs max_batch_size_per_subj
          ifuel rest mask' rng' with
      | .error e => .error e
      | .ok (b, m, r) => .ok ((subj, ids) :: b, m, r)

/-- The cycle loop (lines 247-277).  Returned flag: `true` when the iterator
was exhausted (all `cycles` ran, or the fuel standing in for the infinite
iterator ran out), `false` when the `len(batch_ids_per_subj) == 0` break at
line 270 fired.  Batches are emitted (in order) unless an exception aborts
the whole generator first. -/
def cycleLoop (s : DWIMLBatchSampler) (lengths_mm : List ℚ)
    (ids_per_subjs : List (Nat × Nat)) (sampled_subjs : List Nat)
    (max_batch_size_per_subj : ℚ) (ifuel : Nat) :
    Nat → List Bool → Rng → Except LoopErr (List Batch × List Bool × Rng × Bool)
  | 0, mask, rng => .ok ([], mask, rng, true)
  | cf + 1, mask, rng =>
    match subjectLoop s lengths_mm ids_per_subjs max_batch_size_per_subj
        ifuel sampled_subjs mask rng with
    | .error e => .error e
    | .ok (batch, m, r) =>
      if batch.length = 0 then .ok ([], m, r, false)
      else
        match cycleLoop s lengths_mm ids_per_subjs sampled_subjs
            max_batch_size_per_subj ifuel cf m r with
        | .error e => .error e
        | .ok (bs, m2, r2, ranOut) => .ok (batch :: bs, m2, r2, ranOut)

/-- `np.sum(global_unused_streamlines[subj_id_slice])` per subject, in dict
order (lines 199-201); on a boolean mask the sum is the number of unused
entries of the slice. -/
def streamlinesPerSubj (mask : List Bool) (slices : List (Nat × Nat)) : List Nat :=
  slices.map (fun sl => (flatnonzeroSlice mask sl.1 sl.2).length)

/-- Indices of the subjects whose sampling weight is nonzero
(`np.count_nonzero(weights)` and `p=weights` at lines 219-226). -/
def positiveSubjects (perSubj : List Nat) : List Nat :=
  (List.range perSubj.length).filter (fun i => decide (0 < perSubj.getD i 0))

/-- Subject selection (lines 217-230): weighted draw without replacement of
`min(nb_subjects_per_batch, count_nonzero(weights))` subjects, or every
subject (dict order) when `nb_subjects_per_batch` is falsy.  Returns the
sampled subjects, `nb_subjects`, and the advanced rng. -/
def selectSubjects (s : DWIMLBatchSampler) (nSubjTotal : Nat)
    (perSubj : List Nat) (rng : Rng) : List Nat × Nat × Rng :=
  if optTruthy s.nb_subjects_per_batch then
    let cands := positiveSubjects perSubj
    let nb := min (s.nb_subjects_per_batch.getD 0) cands.length
    let drawn := np_choice_no_replace cands nb rng
    (drawn.1, nb, drawn.2)
  else
    (List.range nSubjTotal, nSubjTotal, rng)

inductive IterOut
  | finished (yielded : List Batch)
  | failed (e : LoopErr) (yielded : List Batch)
deriving DecidableEq, Repr

def IterOut.batches : IterOut → List Batch
  | .finished bs => bs
  | .failed _ bs => bs

def IterOut.isFinished : IterOut → Bool
  | .finished _ => true
  | .failed _ _ => false

/-- The outer `while True` of `__iter__` (lines 197-280), with explicit
fuel.  Each round: recompute per-subject remaining counts, run the
`assert` of lines 202-207, stop cleanly when nothing remains (lines
210-213), select subjects, compute `max_batch_size_per_subj =
batch_size / nb_subjects` (line 236), then run the cycle loop —
`range(cycles)` when `cycles` is truthy, else the infinite `iter(int, 1)`
idiom, whose exhaustion can only come from fuel. -/
def outerLoop (s : DWIMLBatchSampler) (pool : MultisubjectSubset) :
    Nat → List Bool → Rng → List Batch → IterOut
  | 0, _, _, acc => .failed .outOfFuel acc
  | n + 1, mask, rng, acc =>
    let slices := pool.streamline_ids_per_subj
    let perSubj := streamlinesPerSubj mask slices
    if perSubj.sum ≠ mask.count true then .failed .assertError acc
    else if perSubj.sum = 0 then .finished acc
    else
      let sel := selectSubjects s slices.length perSubj rng
      let maxB : ℚ := (s.batch_size : ℚ) / (sel.2.1 : ℚ)
      let cfuel := if optTruthy s.cycles then s.cycles.getD 0 else n + 1
      match cycleLoop s pool.streamline_lengths_mm slices sel.1 maxB (n + 1)
          cfuel mask sel.2.2 with
      | .error e => .failed e acc
      | .ok (bs, m, r, ranOut) =>
        if !optTruthy s.cycles && ranOut then .failed .outOfFuel (acc ++ bs)
        else outerLoop s pool n m r (acc ++ bs)

/-- One epoch iteration of the sampler: the mask starts all-unused
(`np.ones_like`, line 190). -/
def samplerIter (s : DWIMLBatchSampler) (pool : MultisubjectSubset)
    (fuel : Nat) (rng : Rng) : IterOut :=
  outerLoop s pool fuel (List.replicate pool.total_nb_streamlines true) rng []

/-- Model of `np.random.RandomState(seed)` as a fixed, deterministic stream
of draws derived from the seed; the exact values are irrelevant to every
statement below, only that the stream is a function of the seed. -/
def np_RandomState (seed : Nat) : Rng :=
  (List.range 64).map (fun i => (seed + i + 1) * 2654435761 % 4294967296)

/-- Construct a sampler (mutating the torch global state) and run one epoch
with the generator derived from the configured seed. -/
def construct_and_iter (batch_size : Int) (batch_size_units : String)
    (nb_streamlines_per_chunk : Nat) (rng : Nat)
    (nb_subjects_per_batch : Option Nat) (cycles : Option Nat)
    (pool : MultisubjectSubset) (fuel : Nat) (torch : TorchState) :
    Except String IterOut × TorchState :=
  let ini := DWIMLBatchSampler_init batch_size batch_size_units
    nb_streamlines_per_chunk rng nb_subjects_per_batch cycles torch
  (ini.1.map (fun s => samplerIter s pool fuel (np_RandomState rng)), ini.2)

/-! ## Derived notions used in the statements -/

def exceptIsOk {ε α : Type} : Except ε α → Bool
  | .ok _ => true
  | .error _ => false

/-- The per-id cost that `compute_and_adjust_batch_size` assigns:
`1` per streamline in count mode, the `length_mm` lookup in length mode. -/
def sizeOfId (s : DWIMLBatchSampler) (lengths_mm : List ℚ) (g : Nat) : ℚ :=
  match s.batch_size_units with
  | .length_mm => lengths_mm.getD g 0
  | .nb_streamlines => 1

/-- Realized budget cost of a round's relative ids for the subject whose
slice starts at `st`. -/
def roundCost (s : DWIMLBatchSampler) (lengths_mm : List ℚ) (st : Nat)
    (ids : List Nat) : ℚ :=
  (ids.map (fun d => sizeOfId s lengths_mm (d + st))).sum

/-- Global ids contributed by one `(subject, relative_ids)` pair. -/
def pairGlobals (slices : List (Nat × Nat)) (p : Nat × List Nat) : List Nat :=
  p.2.map (fun d => d + (slices.getD p.1 (0, 0)).1)

def batchGlobals (slices : List (Nat × Nat)) (b : Batch) : List Nat :=
  (b.map (pairGlobals slices)).flatten

/-- All global ids selected across all yielded batches of an epoch run,
in yield order. -/
def epochGlobalIds (slices : List (Nat × Nat)) (out : IterOut) : List Nat :=
  (out.batches.map (batchGlobals slices)).flatten

def hasDupNat : List Nat → Bool
  | [] => false
  | x :: xs => xs.contains x || hasDupNat xs

/-- Two pairs of a batch touch disjoint sets of global ids. -/
def pairDisj (slices : List (Nat × Nat)) (p q : Nat × List Nat) : Prop :=
  ∀ x ∈ pairGlobals slices p, x ∉ pairGlobals slices q

/-- Two batches touch disjoint sets of global ids. -/
def batchDisj (slices : List (Nat × Nat)) (b1 b2 : Batch) : Prop :=
  ∀ x ∈ batchGlobals slices b1, x ∉ batchGlobals slices b2

def containsEmptyPair (out : IterOut) : Bool :=
  out.batches.any (fun b => b.any (fun p => p.2.isEmpty))

/-! ## Concrete instances used by the claims -/

/-- Scenario A of the spec: 2 subjects, slices `[0,10)` and `[10,15)`,
count budget 5 (chunk size therefore 5), one subject per batch, one cycle. -/
def samplerA : DWIMLBatchSampler := ⟨5, .nb_streamlines, 5, some 1, some 1, 0⟩

def poolA : MultisubjectSubset := ⟨15, [(0, 10), (10, 15)], []⟩

/-- Length mode, budget 100, chunks of 2, a single subject with two
streamlines of length 1: the subject is fully consumed in mid-round, so the
third chunk call sees an all-used slice. -/
def samplerC1 : DWIMLBatchSampler := ⟨100, .length_mm, 2, some 1, some 1, 0⟩

def poolC1 : MultisubjectSubset := ⟨2, [(0, 2)], [1, 1]⟩

/-- Count budget 5 over one subject holding only 3 streamlines. -/
def samplerC2 : DWIMLBatchSampler := ⟨5, .nb_streamlines, 5, some 1, some 1, 0⟩

def poolC2 : MultisubjectSubset := ⟨3, [(0, 3)], []⟩

/-- Length budget 1 (smaller than any streamline) over a single subject of
length 50: every round trims the chunk to nothing and consumes nothing. -/
def samplerC3 : DWIMLBatchSampler := ⟨1, .length_mm, 1, some 1, some 1, 0⟩

def poolC3 : MultisubjectSubset := ⟨1, [(0, 1)], [50]⟩

/-- Scenario C of the spec: length mode, lengths `[50, 60, 5]`, sub-budget
100, chunk of 3. -/
def samplerC5 : DWIMLBatchSampler := ⟨100, .length_mm, 3, none, none, 0⟩

/-! ## Basic lemmas about the list helpers -/

unseal Rat.add Rat.sub Rat.mul Rat.inv

lemma getD_mem_or {α : Type} (l : List α) (i : Nat) (d : α) :
    l.getD i d ∈ l ∨ l.getD i d = d := by
  rcases Nat.lt_or_ge i l.length with h | h
  · left
    rw [List.getD_eq_getElem l d h]
    exact List.getElem_mem h
  · right
    exact List.getD_eq_default l d h

lemma getD_mem {α : Type} (l : List α) (i : Nat) (d : α) (h : i < l.length) :
    l.getD i d ∈ l := by
  rw [List.getD_eq_getElem l d h]
  exact List.getElem_mem h

lemma np_choice_length (cands : List Nat) (n : Nat) (r : Rng) :
    (np_choice cands n r).1.length = n := by
  induction n generalizing r with
  | zero => rfl
  | succ m ih => simp [np_choice, ih]

lemma np_choice_subset (cands : List Nat) (n : Nat) (r : Rng)
    (hne : cands ≠ []) : ∀ x ∈ (np_choice cands n r).1, x ∈ cands := by
  induction n generalizing r with
  | zero => simp [np_choice]
  | succ m ih =>
    intro x hx
    simp only [np_choice, List.mem_cons] at hx
    rcases hx with rfl | hx
    · exact getD_mem _ _ _ (Nat.mod_lt _ (List.length_pos.mpr hne))
    · exact ih (rngTail r) x hx

lemma np_choice_no_replace_mem (cands : List Nat) (k : Nat) (r : Rng) :
    ∀ x ∈ (np_choice_no_replace cands k r).1, x ∈ cands := by
  induction k generalizing cands r with
  | zero => simp [np_choice_no_replace]
  | succ k' ih =>
    intro x hx
    match cands with
    | [] => simp [np_choice_no_replace] at hx
    | c0 :: cs =>
      simp only [np_choice_no_replace, List.mem_cons] at hx
      rcases hx with rfl | hx
      · exact getD_mem _ _ _ (Nat.mod_lt _ (Nat.succ_pos _))
      · exact List.mem_of_mem_eraseIdx (ih _ (rngTail r) x hx)

lemma boolSelect_nil_sel {α : Type} (xs : List α) : boolSelect xs [] = [] := by
  simp [boolSelect]

lemma boolSelect_nil {α : Type} (sel : List Bool) :
    boolSelect ([] : List α) sel = [] := by
  simp [boolSelect]

lemma boolSelect_cons {α : Type} (x : α) (xs : List α) (b : Bool)
    (sel : List Bool) :
    boolSelect (x :: xs) (b :: sel)
      = if b then x :: boolSelect xs sel else boolSelect xs sel := by
  cases b <;> simp [boolSelect]

lemma boolSelect_subset {α : Type} (xs : List α) (sel : List Bool) :
    ∀ x ∈ boolSelect xs sel, x ∈ xs := by
  intro x hx
  simp only [boolSelect, List.mem_map, List.mem_filter] at hx
  obtain ⟨p, ⟨hpz, _⟩, hpx⟩ := hx
  exact hpx ▸ (List.of_mem_zip hpz).1

lemma boolSelect_map {α β : Type} (f : α → β) (xs : List α) (sel : List Bool) :
    boolSelect (xs.map f) sel = (boolSelect xs sel).map f := by
  induction xs generalizing sel with
  | nil => simp [boolSelect_nil]
  | cons x xs ih =>
    cases sel with
    | nil => simp [boolSelect_nil_sel]
    | cons b s =>
      simp only [List.map_cons, boolSelect_cons]
      cases b <;> simp [ih]

lemma boolSelect_all_false {α : Type} (xs : List α) (sel : List Bool)
    (h : ∀ b ∈ sel, b = false) : boolSelect xs sel = [] := by
  induction xs generalizing sel with
  | nil => simp [boolSelect_nil]
  | cons x xs ih =>
    cases sel with
    | nil => simp [boolSelect_nil_sel]
    | cons b s =>
      have hb : b = false := h b (List.mem_cons_self b s)
      subst hb
      simp only [boolSelect_cons, if_neg (Bool.false_ne_true)]
      exact ih s (fun b hb => h b (List.mem_cons_of_mem _ hb))

lemma cumsumFrom_base_le (l : List ℚ) (c : ℚ) (hnn : ∀ x ∈ l, 0 ≤ x) :
    ∀ t ∈ cumsumFrom c l, c ≤ t := by
  induction l generalizing c with
  | nil => simp [cumsumFrom]
  | cons x xs ih =>
    intro t ht
    have hx : 0 ≤ x := hnn x (List.mem_cons_self x xs)
    simp only [cumsumFrom, List.mem_cons] at ht
    rcases ht with rfl | ht
    · linarith
    · have := ih (c + x) (fun y hy => hnn y (List.mem_cons_of_mem _ hy)) t ht
      linarith

lemma cumsum_sel_all_false (l : List ℚ) (c a : ℚ) (hnn : ∀ x ∈ l, 0 ≤ x)
    (hc : a ≤ c) :
    ∀ b ∈ (cumsumFrom c l).map (fun t => decide (t < a)), b = false := by
  intro b hb
  simp only [List.mem_map] at hb
  obtain ⟨t, ht, rfl⟩ := hb
  have := cumsumFrom_base_le l c hnn t ht
  simp only [decide_eq_false_iff_not, not_lt]
  linarith

/-- Key budget lemma: the chunk entries kept by the cumulative-sum mask sum
to strictly less than the allowance (the trim at lines 400-407 never lets
the committed cost reach `max_subbatch_size`). -/
lemma boolSelect_cumsum_sum_lt (l : List ℚ) (c a : ℚ)
    (hnn : ∀ x ∈ l, 0 ≤ x) (hca : c < a) :
    c + (boolSelect l ((cumsumFrom c l).map (fun t => decide (t < a)))).sum < a := by
  induction l generalizing c with
  | nil => simpa [cumsumFrom, boolSelect_nil_sel]
  | cons x xs ih =>
    have hx : 0 ≤ x := hnn x (List.mem_cons_self x xs)
    have hxs : ∀ y ∈ xs, 0 ≤ y := fun y hy => hnn y (List.mem_cons_of_mem _ hy)
    simp only [cumsumFrom, List.map_cons, boolSelect_cons]
    by_cases h : c + x < a
    · rw [if_pos (by simpa using h)]
      have := ih (c + x) hxs h
      simp only [List.sum_cons]
      linarith
    · rw [if_neg (by simpa using h)]
      rw [boolSelect_all_false xs _ (cumsum_sel_all_false xs (c + x) a hxs (by linarith))]
      simpa using hca

/-- The cumulative-sum mask keeps exactly the longest head run of the chunk
whose running cost stays strictly below the allowance. -/
lemma boolSelect_cumsum_eq_take {α : Type} (xs : List α) (l : List ℚ)
    (c a : ℚ) (hnn : ∀ x ∈ l, 0 ≤ x) (hlen : xs.length = l.length) :
    boolSelect xs ((cumsumFrom c l).map (fun t => decide (t < a)))
      = xs.take ((cumsumFrom c l).takeWhile (fun t => decide (t < a))).length := by
  induction l generalizing xs c with
  | nil =>
    simp only [cumsumFrom, List.map_nil, boolSelect_nil_sel, List.takeWhile_nil,
      List.length_nil, List.take_zero]
  | cons y ys ih =>
    cases xs with
    | nil => simp [boolSelect_nil]
    | cons x xs =>
      have hys : ∀ z ∈ ys, 0 ≤ z := fun z hz => hnn z (List.mem_cons_of_mem _ hz)
      have hlen' : xs.length = ys.length := by simpa using hlen
      simp only [cumsumFrom, List.map_cons, boolSelect_cons, List.takeWhile_cons]
      by_cases h : c + y < a
      · rw [if_pos (by simpa using h), if_pos (by simpa using h)]
        simp only [List.length_cons, List.take_succ_cons]
        rw [ih xs (c + y) hys hlen']
      · rw [if_neg (by simpa using h), if_neg (by simpa using h)]
        simp only [List.length_nil, List.take_zero]
        exact boolSelect_all_false xs _
          (cumsum_sel_all_false ys (c + y) a hys (by linarith))

/-! ## Lemmas about the usage mask -/

lemma consumeFrom_length (pos : Nat) (gids : List Nat) (mask : List Bool) :
    (consumeFrom pos gids mask).length = mask.length := by
  induction mask generalizing pos with
  | nil => rfl
  | cons b bs ih => simp [consumeFrom, ih]

lemma consume_length (mask : List Bool) (gids : List Nat) :
    (consume mask gids).length = mask.length :=
  consumeFrom_length 0 gids mask

lemma consumeFrom_getD (gids : List Nat) (mask : List Bool) (pos i : Nat) :
    (consumeFrom pos gids mask).getD i false
      = if pos + i ∈ gids ∧ i < mask.length then false
        else mask.getD i false := by
  induction mask generalizing pos i with
  | nil => simp [consumeFrom]
  | cons b bs ih =>
    cases i with
    | zero =>
      by_cases h : pos ∈ gids <;> simp [consumeFrom, h]
    | succ i' =>
      have := ih (pos + 1) i'
      simp only [consumeFrom, List.getD_cons_succ, List.length_cons]
      rw [this]
      have harith : pos + 1 + i' = pos + (i' + 1) := by omega
      rw [harith]
      by_cases hmem : pos + (i' + 1) ∈ gids <;>
        by_cases hlt : i' < bs.length <;>
          simp [hmem, hlt, Nat.succ_lt_succ_iff]

lemma consume_getD (mask : List Bool) (gids : List Nat) (i : Nat) :
    (consume mask gids).getD i false
      = if i ∈ gids ∧ i < mask.length then false else mask.getD i false := by
  have := consumeFrom_getD gids mask 0 i
  simpa using this

lemma consume_dead_mono (mask : List Bool) (gids : List Nat) (i : Nat)
    (h : mask.getD i false = false) : (consume mask gids).getD i false = false := by
  rw [consume_getD]
  split
  · rfl
  · exact h

lemma consume_dead_of_mem (mask : List Bool) (gids : List Nat) (i : Nat)
    (h : i ∈ gids) : (consume mask gids).getD i false = false := by
  rw [consume_getD]
  by_cases hlt : i < mask.length
  · simp [h, hlt]
  · simp only [h, hlt, and_false, if_false]
    exact List.getD_eq_default _ _ (Nat.le_of_not_lt hlt)

lemma consume_live_anti (mask : List Bool) (gids : List Nat) (i : Nat)
    (h : (consume mask gids).getD i false = true) : mask.getD i false = true := by
  by_contra hc
  rw [consume_dead_mono mask gids i (Bool.not_eq_true _ ▸ hc)] at h
  exact Bool.false_ne_true h

lemma mem_flatnonzeroSlice (mask : List Bool) (st en x : Nat) :
    x ∈ flatnonzeroSlice mask st en
      ↔ x < mask.length ∧ st ≤ x ∧ x < en ∧ mask.getD x false = true := by
  simp only [flatnonzeroSlice, List.mem_filter, List.mem_range,
    Bool.and_eq_true, decide_eq_true_eq]
  tauto

/-! ## Inversion of the chunk routine -/

/-- When the subject slice still holds unused ids,
`_get_a_chunk_of_streamlines` takes its normal 5-value exit; this inversion
recovers the two branches of lines 400-407. -/
lemma chunk_tuple5_cases (s : DWIMLBatchSampler) (lengths_mm : List ℚ)
    (st en : Nat) (mask : List Bool) (cur mx : ℚ) (rng : Rng)
    (g r : List Nat) (sz : ℚ) (nl rm : Bool) (rng' : Rng)
    (h : get_a_chunk_of_streamlines s lengths_mm (st, en) mask cur mx rng
      = (.tuple5 g r sz nl rm, rng')) :
    flatnonzeroSlice mask st en ≠ [] ∧ nl = false ∧
    rng' = (np_choice (flatnonzeroSlice mask st en) s.nb_streamlines_per_chunk rng).2 ∧
    r = g.map (fun x => x - st) ∧
    (let chosen := (np_choice (flatnonzeroSlice mask st en)
        s.nb_streamlines_per_chunk rng).1
     let sizes := compute_and_adjust_batch_size s lengths_mm chosen
     (¬ (mx ≤ cur + sizes.sum) ∧ g = chosen ∧ sz = sizes.sum ∧ rm = false) ∨
     ((mx ≤ cur + sizes.sum) ∧
       g = boolSelect chosen ((cumsumFrom 0 sizes).map (fun t => decide (t < mx - cur))) ∧
       sz = (boolSelect sizes ((cumsumFrom 0 sizes).map (fun t => decide (t < mx - cur)))).sum ∧
       rm = true)) := by
  simp only [get_a_chunk_of_streamlines] at h
  by_cases hemp : (flatnonzeroSlice mask st en).length = 0
  · rw [if_pos hemp] at h
    exact ChunkRet.noConfusion (congrArg Prod.fst h)
  · rw [if_neg hemp] at h
    have hne : flatnonzeroSlice mask st en ≠ [] := fun hc => hemp (by simp [hc])
    by_cases hcond : mx ≤ cur + (compute_and_adjust_batch_size s lengths_mm
        (np_choice (flatnonzeroSlice mask st en) s.nb_streamlines_per_chunk rng).1).sum
    · rw [if_pos hcond] at h
      rw [Prod.mk.injEq] at h
      obtain ⟨h1, h2⟩ := h
      rw [ChunkRet.tuple5.injEq] at h1
      obtain ⟨hg, hr, hsz, hnl, hrm⟩ := h1
      subst hg; subst hr; subst hsz; subst hnl; subst hrm; subst h2
      exact ⟨hne, rfl, rfl, rfl, Or.inr ⟨hcond, rfl, rfl, rfl⟩⟩
    · rw [if_neg hcond] at h
      rw [Prod.mk.injEq] at h
      obtain ⟨h1, h2⟩ := h
      rw [ChunkRet.tuple5.injEq] at h1
      obtain ⟨hg, hr, hsz, hnl, hrm⟩ := h1
      subst hg; subst hr; subst hsz; subst hnl; subst hrm; subst h2
      exact ⟨hne, rfl, rfl, rfl, Or.inl ⟨hcond, rfl, rfl, rfl⟩⟩

/-- In both branches, the kept global ids come from the unused part of the
subject's slice. -/
lemma chunk_tuple5_mem (s : DWIMLBatchSampler) (lengths_mm : List ℚ)
    (st en : Nat) (mask : List Bool) (cur mx : ℚ) (rng : Rng)
    (g r : List Nat) (sz : ℚ) (nl rm : Bool) (rng' : Rng)
    (h : get_a_chunk_of_streamlines s lengths_mm (st, en) mask cur mx rng
      = (.tuple5 g r sz nl rm, rng')) :
    ∀ x ∈ g, x ∈ flatnonzeroSlice mask st en := by
  obtain ⟨hne, -, -, -, hbr⟩ := chunk_tuple5_cases s lengths_mm st en mask cur mx rng
    g r sz nl rm rng' h
  simp only at hbr
  rcases hbr with ⟨-, hg, -, -⟩ | ⟨-, hg, -, -⟩
  · exact hg ▸ np_choice_subset _ _ _ hne
  · intro x hx
    exact np_choice_subset _ _ _ hne x
      (boolSelect_subset _ _ x (hg ▸ hx))

lemma compute_eq_map_sizeOf (s : DWIMLBatchSampler) (lengths_mm : List ℚ)
    (chosen : List Nat) :
    compute_and_adjust_batch_size s lengths_mm chosen
      = chosen.map (sizeOfId s lengths_mm) := by
  cases hu : s.batch_size_units <;>
  · simp only [compute_and_adjust_batch_size, hu]
    exact List.map_congr_left (fun a _ => by simp [sizeOfId, hu])

lemma sizeOfId_nonneg (s : DWIMLBatchSampler) (lengths_mm : List ℚ) (g : Nat)
    (hnn : ∀ l ∈ lengths_mm, 0 ≤ l) : 0 ≤ sizeOfId s lengths_mm g := by
  cases hu : s.batch_size_units <;> simp only [sizeOfId, hu]
  · norm_num
  · rcases getD_mem_or lengths_mm g 0 with h | h
    · exact hnn _ h
    · rw [h]

lemma relCost_eq (s : DWIMLBatchSampler) (L : List ℚ) (st : Nat)
    (g : List Nat) (hmem : ∀ x ∈ g, st ≤ x) :
    roundCost s L st (g.map (fun x => x - st)) = (g.map (sizeOfId s L)).sum := by
  unfold roundCost
  rw [List.map_map]
  congr 1
  refine List.map_congr_left (fun x hx => ?_)
  simp only [Function.comp]
  rw [Nat.sub_add_cancel (hmem x hx)]

/-! ## The per-subject sampling loop: consumption and budget invariants -/

/-- Invariant of the `while True` loop of `_sample_streamlines_for_subj`:
on normal return, the mask keeps its length, availability only decreases,
and the newly returned relative ids were available on entry and are marked
used on exit. -/
lemma sampleLoopGo_spec (s : DWIMLBatchSampler) (L : List ℚ) (st en : Nat)
    (mx : ℚ) :
    ∀ (fuel : Nat) (mask : List Bool) (cur : ℚ) (acc : List Nat) (rng : Rng)
      (out : List Nat) (m' : List Bool) (r' : Rng),
      sampleLoopGo s L (st, en) mx fuel mask cur acc rng = .ok out m' r' →
      m'.length = mask.length ∧
      (∀ i, mask.getD i false = false → m'.getD i false = false) ∧
      ∃ Δ, out = acc ++ Δ ∧
        ∀ d ∈ Δ, d + st < mask.length ∧ mask.getD (d + st) false = true ∧
          m'.getD (d + st) false = false := by
  intro fuel
  induction fuel with
  | zero => intro mask cur acc rng out m' r' h; exact SampleRes.noConfusion h
  | succ fuel ih =>
    intro mask cur acc rng out m' r' h
    rw [sampleLoopGo] at h
    rcases hch : get_a_chunk_of_streamlines s L (st, en) mask cur mx rng
      with ⟨cr, rng2⟩
    rw [hch] at h
    cases cr with
    | tuple4 a b c d => exact SampleRes.noConfusion h
    | tuple5 g r sz nl rm =>
      obtain ⟨-, hnl, -, hr, -⟩ := chunk_tuple5_cases s L st en mask cur mx rng
        g r sz nl rm rng2 hch
      have hgmem := chunk_tuple5_mem s L st en mask cur mx rng
        g r sz nl rm rng2 hch
      subst hnl
      simp only [Bool.false_eq_true, if_false] at h
      have hdelta : ∀ d ∈ r, d + st < mask.length ∧
          mask.getD (d + st) false = true ∧
          (consume mask g).getD (d + st) false = false := by
        intro d hd
        subst hr
        obtain ⟨x, hxg, rfl⟩ := List.mem_map.mp hd
        obtain ⟨hxlen, hxst, -, hxlive⟩ :=
          (mem_flatnonzeroSlice mask st en x).mp (hgmem x hxg)
        rw [Nat.sub_add_cancel hxst]
        exact ⟨hxlen, hxlive, consume_dead_of_mem mask g x hxg⟩
      cases hrm : rm with
      | true =>
        rw [hrm, if_pos rfl] at h
        obtain ⟨ho, hm, hrg⟩ := SampleRes.ok.inj h
        refine ⟨hm ▸ consume_length mask g, ?_, r, ho.symm, ?_⟩
        · intro i hi
          exact hm ▸ consume_dead_mono mask g i hi
        · intro d hd
          exact hm ▸ hdelta d hd
      | false =>
        rw [hrm, if_neg (Bool.false_ne_true)] at h
        obtain ⟨hlen2, hmono2, Δ2, hout2, hdel2⟩ := ih _ _ _ _ _ _ _ h
        refine ⟨hlen2.trans (consume_length mask g), ?_, r ++ Δ2, ?_, ?_⟩
        · intro i hi
          exact hmono2 i (consume_dead_mono mask g i hi)
        · rw [hout2, List.append_assoc]
        · intro d hd
          rcases List.mem_append.mp hd with hd | hd
          · obtain ⟨hdl, hdlive, hddead⟩ := hdelta d hd
            exact ⟨hdl, hdlive, hmono2 _ hddead⟩
          · obtain ⟨hdl, hdlive, hddead⟩ := hdel2 d hd
            rw [consume_length mask g] at hdl
            exact ⟨hdl, consume_live_anti mask g _ hdlive, hddead⟩

/-- Budget invariant of the per-subject loop: whatever chunks are drawn,
the realized cost of the ids committed in one round stays strictly below
the remaining allowance. -/
lemma sampleLoopGo_cost (s : DWIMLBatchSampler) (L : List ℚ) (st en : Nat)
    (mx : ℚ) (hnn : ∀ l ∈ L, 0 ≤ l) :
    ∀ (fuel : Nat) (mask : List Bool) (cur : ℚ) (acc : List Nat) (rng : Rng)
      (out : List Nat) (m' : List Bool) (r' : Rng),
      sampleLoopGo s L (st, en) mx fuel mask cur acc rng = .ok out m' r' →
      cur < mx →
      ∃ Δ, out = acc ++ Δ ∧ cur + roundCost s L st Δ < mx := by
  intro fuel
  induction fuel with
  | zero => intro mask cur acc rng out m' r' h; exact SampleRes.noConfusion h
  | succ fuel ih =>
    intro mask cur acc rng out m' r' h hcur
    rw [sampleLoopGo] at h
    rcases hch : get_a_chunk_of_streamlines s L (st, en) mask cur mx rng
      with ⟨cr, rng2⟩
    rw [hch] at h
    cases cr with
    | tuple4 a b c d => exact SampleRes.noConfusion h
    | tuple5 g r sz nl rm =>
      obtain ⟨hne, hnl, -, hr, hbr⟩ := chunk_tuple5_cases s L st en mask cur mx rng
        g r sz nl rm rng2 hch
      have hgmem := chunk_tuple5_mem s L st en mask cur mx rng
        g r sz nl rm rng2 hch
      have hgst : ∀ x ∈ g, st ≤ x := fun x hx =>
        ((mem_flatnonzeroSlice mask st en x).mp (hgmem x hx)).2.1
      have hrcost : roundCost s L st r = (g.map (sizeOfId s L)).sum :=
        hr ▸ relCost_eq s L st g hgst
      subst hnl
      simp only [Bool.false_eq_true, if_false] at h
      simp only at hbr
      set chosen := (np_choice (flatnonzeroSlice mask st en)
        s.nb_streamlines_per_chunk rng).1 with hchosen
      have hsz : compute_and_adjust_batch_size s L chosen
          = chosen.map (sizeOfId s L) := compute_eq_map_sizeOf s L chosen
      have hsnn : ∀ x ∈ compute_and_adjust_batch_size s L chosen, 0 ≤ x := by
        rw [hsz]
        intro x hx
        obtain ⟨y, -, rfl⟩ := List.mem_map.mp hx
        exact sizeOfId_nonneg s L y hnn
      rcases hbr with ⟨hlt, hg, hszv, hrm⟩ | ⟨hge, hg, hszv, hrm⟩
      · -- chunk fits entirely: commit and continue
        subst hrm
        rw [if_neg (Bool.false_ne_true)] at h
        have hcur' : cur + sz < mx := by
          rw [hszv]
          exact lt_of_not_le hlt
        obtain ⟨Δ2, hout2, hcost2⟩ := ih _ _ _ _ _ _ _ h hcur'
        refine ⟨r ++ Δ2, by rw [hout2, List.append_assoc], ?_⟩
        have : roundCost s L st (r ++ Δ2)
            = roundCost s L st r + roundCost s L st Δ2 := by
          unfold roundCost
          rw [List.map_append, List.sum_append]
        rw [this, hrcost, hg, ← hsz, ← hszv]
        linarith
      · -- budget reached: trimmed chunk, loop stops
        subst hrm
        rw [if_pos rfl] at h
        obtain ⟨ho, -, -⟩ := SampleRes.ok.inj h
        refine ⟨r, ho.symm, ?_⟩
        have hbound := boolSelect_cumsum_sum_lt
          (compute_and_adjust_batch_size s L chosen) 0 (mx - cur) hsnn
          (by linarith)
        have hgsum : (g.map (sizeOfId s L)).sum
            = (boolSelect (compute_and_adjust_batch_size s L chosen)
                ((cumsumFrom 0 (compute_and_adjust_batch_size s L chosen)).map
                  (fun t => decide (t < mx - cur)))).sum := by
          rw [hg, ← boolSelect_map, ← hsz]
        rw [hrcost, hgsum]
        linarith

/-! ## Subject, cycle and outer loop invariants -/

lemma mem_batchGlobals (slices : List (Nat × Nat)) (b : Batch) (x : Nat) :
    x ∈ batchGlobals slices b ↔ ∃ p ∈ b, x ∈ pairGlobals slices p := by
  simp only [batchGlobals, List.mem_flatten, List.mem_map]
  constructor
  · rintro ⟨l, ⟨p, hp, rfl⟩, hx⟩
    exact ⟨p, hp, hx⟩
  · rintro ⟨p, hp, hx⟩
    exact ⟨pairGlobals slices p, ⟨p, hp, rfl⟩, hx⟩

/-- Invariant of the subject loop of one cycle: availability only
decreases, each pair's global ids were available on entry and are used on
exit, and distinct pairs of the assembled batch touch disjoint ids. -/
lemma subjectLoop_spec (s : DWIMLBatchSampler) (L : List ℚ)
    (slices : List (Nat × Nat)) (mx : ℚ) (ifuel : Nat) :
    ∀ (subjs : List Nat) (mask : List Bool) (rng : Rng) (batch : Batch)
      (m' : List Bool) (r' : Rng),
      subjectLoop s L slices mx ifuel subjs mask rng = .ok (batch, m', r') →
      m'.length = mask.length ∧
      (∀ i, mask.getD i false = false → m'.getD i false = false) ∧
      (∀ p ∈ batch, ∀ x ∈ pairGlobals slices p,
        mask.getD x false = true ∧ m'.getD x false = false) ∧
      List.Pairwise (pairDisj slices) batch := by
  intro subjs
  induction subjs with
  | nil =>
    intro mask rng batch m' r' h
    simp only [subjectLoop] at h
    have h' := Except.ok.inj h
    simp only [Prod.mk.injEq] at h'
    obtain ⟨rfl, rfl, rfl⟩ := h'
    exact ⟨rfl, fun i hi => hi, by simp, List.Pairwise.nil⟩
  | cons subj rest ih =>
    intro mask rng batch m' r' h
    simp only [subjectLoop] at h
    rcases hsm : sample_streamlines_for_subj s L slices subj mx ifuel mask rng with
      ⟨ids, mask1, rng1⟩ | ⟨mv, rv⟩ | ⟨⟩
    · simp only [hsm] at h
      rcases hrest : subjectLoop s L slices mx ifuel rest mask1 rng1 with
        ⟨e⟩ | ⟨b2, m2, r2⟩
      · rw [hrest] at h; exact Except.noConfusion h
      rw [hrest] at h
      have h' := Except.ok.inj h
      simp only [Prod.mk.injEq] at h'
      obtain ⟨rfl, rfl, rfl⟩ := h'
      have hspec := sampleLoopGo_spec s L (slices.getD subj (0, 0)).1
        (slices.getD subj (0, 0)).2 mx ifuel mask 0 [] rng ids mask1 rng1
        (by rw [sample_streamlines_for_subj] at hsm; exact hsm)
      obtain ⟨hlen1, hmono1, delta, hdeq, hdel⟩ := hspec
      rw [List.nil_append] at hdeq
      subst hdeq
      obtain ⟨hlen2, hmono2, hlive2, hpw2⟩ := ih mask1 rng1 b2 m2 r2 hrest
      have hhead : ∀ x ∈ pairGlobals slices (subj, ids),
          mask.getD x false = true ∧ mask1.getD x false = false := by
        intro x hx
        obtain ⟨d, hd, rfl⟩ := List.mem_map.mp hx
        obtain ⟨-, hlv, hdd⟩ := hdel d hd
        exact ⟨hlv, hdd⟩
      refine ⟨hlen2.trans hlen1, fun i hi => hmono2 i (hmono1 i hi), ?_, ?_⟩
      · intro p hp x hx
        rcases List.mem_cons.mp hp with rfl | hp
        · obtain ⟨hlv, hdd⟩ := hhead x hx
          exact ⟨hlv, hmono2 x hdd⟩
        · obtain ⟨hlv, hdd⟩ := hlive2 p hp x hx
          refine ⟨?_, hdd⟩
          by_contra hc
          rw [Bool.not_eq_true] at hc
          rw [hmono1 x hc] at hlv
          exact Bool.false_ne_true hlv
      · refine List.Pairwise.cons ?_ hpw2
        intro q hq x hx hxq
        obtain ⟨-, hdd⟩ := hhead x hx
        obtain ⟨hlv2, -⟩ := hlive2 q hq x hxq
        rw [hlv2] at hdd
        exact Bool.noConfusion hdd
    · rw [hsm] at h; exact Except.noConfusion h
    · rw [hsm] at h; exact Except.noConfusion h

/-- Invariant of the cycle loop: every emitted batch draws only ids that
were available when the cycle loop started and leaves them used; batches of
one cycle-loop run are pairwise disjoint, and each is internally pairwise
disjoint across its pairs. -/
lemma cycleLoop_spec (s : DWIMLBatchSampler) (L : List ℚ)
    (slices : List (Nat × Nat)) (sampled : List Nat) (mx : ℚ) (ifuel : Nat) :
    ∀ (cf : Nat) (mask : List Bool) (rng : Rng) (bs : List Batch)
      (m' : List Bool) (r' : Rng) (fl : Bool),
      cycleLoop s L slices sampled mx ifuel cf mask rng = .ok (bs, m', r', fl) →
      m'.length = mask.length ∧
      (∀ i, mask.getD i false = false → m'.getD i false = false) ∧
      (∀ b ∈ bs, ∀ x ∈ batchGlobals slices b,
        mask.getD x false = true ∧ m'.getD x false = false) ∧
      (∀ b ∈ bs, List.Pairwise (pairDisj slices) b) ∧
      List.Pairwise (batchDisj slices) bs := by
  intro cf
  induction cf with
  | zero =>
    intro mask rng bs m' r' fl h
    rw [cycleLoop] at h
    have h' := Except.ok.inj h
    simp only [Prod.mk.injEq] at h'
    obtain ⟨rfl, rfl, rfl, rfl⟩ := h'
    exact ⟨rfl, fun i hi => hi, by simp, by simp, List.Pairwise.nil⟩
  | succ cf ih =>
    intro mask rng bs m' r' fl h
    rw [cycleLoop] at h
    rcases hsub : subjectLoop s L slices mx ifuel sampled mask rng with
      ⟨e⟩ | ⟨batch, m1, r1⟩
    · rw [hsub] at h; exact Except.noConfusion h
    simp only [hsub] at h
    obtain ⟨hlen1, hmono1, hlive1, hpw1⟩ :=
      subjectLoop_spec s L slices mx ifuel sampled mask rng batch m1 r1 hsub
    by_cases hz : batch.length = 0
    · rw [if_pos hz] at h
      have h' := Except.ok.inj h
      simp only [Prod.mk.injEq] at h'
      obtain ⟨rfl, rfl, rfl, rfl⟩ := h'
      exact ⟨hlen1, hmono1, by simp, by simp, List.Pairwise.nil⟩
    · rw [if_neg hz] at h
      rcases hcy : cycleLoop s L slices sampled mx ifuel cf m1 r1 with
        ⟨e⟩ | ⟨bs2, m2, r2, fl2⟩
      · rw [hcy] at h; exact Except.noConfusion h
      rw [hcy] at h
      have h' := Except.ok.inj h
      simp only [Prod.mk.injEq] at h'
      obtain ⟨rfl, rfl, rfl, rfl⟩ := h'
      obtain ⟨hlen2, hmono2, hlive2, hpwin2, hpw2⟩ := ih m1 r1 bs2 m2 r2 fl2 hcy
      have hbatch : ∀ x ∈ batchGlobals slices batch,
          mask.getD x false = true ∧ m1.getD x false = false := by
        intro x hx
        obtain ⟨p, hp, hxp⟩ := (mem_batchGlobals slices batch x).mp hx
        exact hlive1 p hp x hxp
      refine ⟨hlen2.trans hlen1, fun i hi => hmono2 i (hmono1 i hi), ?_, ?_, ?_⟩
      · intro b hb x hx
        rcases List.mem_cons.mp hb with rfl | hb
        · obtain ⟨hlv, hdd⟩ := hbatch x hx
          exact ⟨hlv, hmono2 x hdd⟩
        · obtain ⟨hlv, hdd⟩ := hlive2 b hb x hx
          refine ⟨?_, hdd⟩
          by_contra hc
          rw [Bool.not_eq_true] at hc
          rw [hmono1 x hc] at hlv
          exact Bool.false_ne_true hlv
      · intro b hb
        rcases List.mem_cons.mp hb with rfl | hb
        · exact hpw1
        · exact hpwin2 b hb
      · refine List.Pairwise.cons ?_ hpw2
        intro b2 hb2 x hx hx2
        obtain ⟨-, hdd⟩ := hbatch x hx
        obtain ⟨hlv2, -⟩ := hlive2 b2 hb2 x hx2
        rw [hlv2] at hdd
        exact Bool.noConfusion hdd

/-- Invariant of the outer round loop, parameterized by the batches already
yielded: all batches ever yielded in one epoch are pairwise disjoint in
global ids and internally pairwise disjoint across their pairs. -/
lemma outerLoop_spec (s : DWIMLBatchSampler) (pool : MultisubjectSubset) :
    ∀ (n : Nat) (mask : List Bool) (rng : Rng) (acc : List Batch),
      (∀ b ∈ acc, List.Pairwise (pairDisj pool.streamline_ids_per_subj) b) →
      List.Pairwise (batchDisj pool.streamline_ids_per_subj) acc →
      (∀ b ∈ acc, ∀ x ∈ batchGlobals pool.streamline_ids_per_subj b,
        mask.getD x false = false) →
      List.Pairwise (batchDisj pool.streamline_ids_per_subj)
        (outerLoop s pool n mask rng acc).batches ∧
      (∀ b ∈ (outerLoop s pool n mask rng acc).batches,
        List.Pairwise (pairDisj pool.streamline_ids_per_subj) b) := by
  intro n
  induction n with
  | zero =>
    intro mask rng acc hin hpw hdead
    exact ⟨hpw, hin⟩
  | succ n ih =>
    intro mask rng acc hin hpw hdead
    simp only [outerLoop]
    by_cases h1 : (streamlinesPerSubj mask pool.streamline_ids_per_subj).sum
        ≠ mask.count true
    · rw [if_pos h1]
      exact ⟨hpw, hin⟩
    rw [if_neg h1]
    by_cases h2 : (streamlinesPerSubj mask pool.streamline_ids_per_subj).sum = 0
    · rw [if_pos h2]
      exact ⟨hpw, hin⟩
    rw [if_neg h2]
    split
    · exact ⟨hpw, hin⟩
    rename_i bs m r ranOut hcy
    obtain ⟨-, hmono, hlive, hpwin, hpwbs⟩ := cycleLoop_spec s
      pool.streamline_lengths_mm pool.streamline_ids_per_subj _ _ _ _ mask _
      bs m r ranOut hcy
    have hin' : ∀ b ∈ acc ++ bs,
        List.Pairwise (pairDisj pool.streamline_ids_per_subj) b := by
      intro b hb
      rcases List.mem_append.mp hb with hb | hb
      · exact hin b hb
      · exact hpwin b hb
    have hpw' : List.Pairwise (batchDisj pool.streamline_ids_per_subj)
        (acc ++ bs) := by
      rw [List.pairwise_append]
      refine ⟨hpw, hpwbs, ?_⟩
      intro b1 hb1 b2 hb2 x hx hx2
      have hdd := hdead b1 hb1 x hx
      obtain ⟨hlv, -⟩ := hlive b2 hb2 x hx2
      rw [hlv] at hdd
      exact Bool.noConfusion hdd
    have hdead' : ∀ b ∈ acc ++ bs,
        ∀ x ∈ batchGlobals pool.streamline_ids_per_subj b,
          m.getD x false = false := by
      intro b hb x hx
      rcases List.mem_append.mp hb with hb | hb
      · exact hmono x (hdead b hb x hx)
      · exact (hlive b hb x hx).2
    by_cases h3 : (!optTruthy s.cycles && ranOut) = true
    · rw [if_pos h3]
      exact ⟨hpw', hin'⟩
    · rw [if_neg h3]
      exact ih m r (acc ++ bs) hin' hpw' hdead'

/-- Every batch that the cycle loop emits is a nonempty list of pairs: the
`len(batch_ids_per_subj) == 0` guard at line 270 suppresses empty batches
before the `yield`. -/
lemma cycleLoop_batches_ne_nil (s : DWIMLBatchSampler) (L : List ℚ)
    (slices : List (Nat × Nat)) (sampled : List Nat) (mx : ℚ) (ifuel : Nat) :
    ∀ (cf : Nat) (mask : List Bool) (rng : Rng) (bs : List Batch)
      (m' : List Bool) (r' : Rng) (fl : Bool),
      cycleLoop s L slices sampled mx ifuel cf mask rng = .ok (bs, m', r', fl) →
      ∀ b ∈ bs, b ≠ [] := by
  intro cf
  induction cf with
  | zero =>
    intro mask rng bs m' r' fl h
    rw [cycleLoop] at h
    have h' := Except.ok.inj h
    simp only [Prod.mk.injEq] at h'
    obtain ⟨rfl, -, -, -⟩ := h'
    simp
  | succ cf ih =>
    intro mask rng bs m' r' fl h
    rw [cycleLoop] at h
    rcases hsub : subjectLoop s L slices mx ifuel sampled mask rng with
      ⟨e⟩ | ⟨batch, m1, r1⟩
    · rw [hsub] at h; exact Except.noConfusion h
    simp only [hsub] at h
    by_cases hz : batch.length = 0
    · rw [if_pos hz] at h
      have h' := Except.ok.inj h
      simp only [Prod.mk.injEq] at h'
      obtain ⟨rfl, -, -, -⟩ := h'
      simp
    · rw [if_neg hz] at h
      rcases hcy : cycleLoop s L slices sampled mx ifuel cf m1 r1 with
        ⟨e⟩ | ⟨bs2, m2, r2, fl2⟩
      · rw [hcy] at h; exact Except.noConfusion h
      rw [hcy] at h
      have h' := Except.ok.inj h
      simp only [Prod.mk.injEq] at h'
      obtain ⟨rfl, -, -, -⟩ := h'
      intro b hb
      rcases List.mem_cons.mp hb with rfl | hb
      · exact fun hc => hz (by rw [hc]; rfl)
      · exact ih m1 r1 bs2 m2 r2 fl2 hcy b hb

/-- Every batch yielded by the outer loop is nonempty (as a list of pairs). -/
lemma outerLoop_batches_ne_nil (s : DWIMLBatchSampler)
    (pool : MultisubjectSubset) :
    ∀ (n : Nat) (mask : List Bool) (rng : Rng) (acc : List Batch),
      (∀ b ∈ acc, b ≠ []) →
      ∀ b ∈ (outerLoop s pool n mask rng acc).batches, b ≠ [] := by
  intro n
  induction n with
  | zero => intro mask rng acc hacc; exact hacc
  | succ n ih =>
    intro mask rng acc hacc
    simp only [outerLoop]
    by_cases h1 : (streamlinesPerSubj mask pool.streamline_ids_per_subj).sum
        ≠ mask.count true
    · rw [if_pos h1]; exact hacc
    rw [if_neg h1]
    by_cases h2 : (streamlinesPerSubj mask pool.streamline_ids_per_subj).sum = 0
    · rw [if_pos h2]; exact hacc
    rw [if_neg h2]
    split
    · exact hacc
    rename_i bs m r ranOut hcy
    have hbs := cycleLoop_batches_ne_nil s pool.streamline_lengths_mm
      pool.streamline_ids_per_subj _ _ _ _ mask _ bs m r ranOut hcy
    have hboth : ∀ b ∈ acc ++ bs, b ≠ [] := by
      intro b hb
      rcases List.mem_append.mp hb with hb | hb
      · exact hacc b hb
      · exact hbs b hb
    by_cases h3 : (!optTruthy s.cycles && ranOut) = true
    · rw [if_pos h3]; exact hboth
    · rw [if_neg h3]; exact ih m r (acc ++ bs) hboth

/-! ## Scenario A: COUNT budget 5, one subject per batch, one cycle -/

lemma mem_positiveSubjects (perSubj : List Nat) (i : Nat) :
    i ∈ positiveSubjects perSubj ↔ i < perSubj.length ∧ 0 < perSubj.getD i 0 := by
  simp [positiveSubjects, List.mem_filter, List.mem_range]

lemma positiveSubjects_ne_nil (perSubj : List Nat) (h : perSubj.sum ≠ 0) :
    positiveSubjects perSubj ≠ [] := by
  have hx : ∃ x ∈ perSubj, x ≠ 0 := by
    by_contra hc
    push_neg at hc
    exact h (List.sum_eq_zero hc)
  obtain ⟨x, hmem, hx0⟩ := hx
  obtain ⟨i, hi, hix⟩ := List.mem_iff_getElem.mp hmem
  refine List.ne_nil_of_mem ((mem_positiveSubjects perSubj i).mpr ⟨hi, ?_⟩)
  rw [List.getD_eq_getElem perSubj 0 hi, hix]
  exact Nat.pos_of_ne_zero hx0

lemma np_choice_no_replace_one (cands : List Nat) (r : Rng) (h : cands ≠ []) :
    np_choice_no_replace cands 1 r
      = ([cands.getD (rngHead r % cands.length) 0], rngTail r) := by
  match cands with
  | [] => exact absurd rfl h
  | c0 :: cs => rfl

/-- With `nb_subjects_per_batch = 1`, every selection round picks exactly
one subject with a nonzero remaining count. -/
lemma scenA_select (nTot : Nat) (perSubj : List Nat) (rng : Rng)
    (hsum : perSubj.sum ≠ 0) :
    ∃ c, selectSubjects samplerA nTot perSubj rng = ([c], 1, rngTail rng) ∧
      c < perSubj.length ∧ 0 < perSubj.getD c 0 := by
  have hne := positiveSubjects_ne_nil perSubj hsum
  have hlen : 0 < (positiveSubjects perSubj).length := List.length_pos.mpr hne
  have hmin : min (samplerA.nb_subjects_per_batch.getD 0)
      (positiveSubjects perSubj).length = 1 := by
    have : samplerA.nb_subjects_per_batch.getD 0 = 1 := rfl
    rw [this]
    omega
  refine ⟨(positiveSubjects perSubj).getD
    (rngHead rng % (positiveSubjects perSubj).length) 0, ?_, ?_⟩
  · rw [selectSubjects]
    rw [if_pos (by decide : optTruthy samplerA.nb_subjects_per_batch = true)]
    simp only [hmin, np_choice_no_replace_one _ _ hne]
  · have hcm := getD_mem (positiveSubjects perSubj)
      (rngHead rng % (positiveSubjects perSubj).length) 0
      (Nat.mod_lt _ hlen)
    exact (mem_positiveSubjects perSubj _).mp hcm

lemma boolSelect_ttttf {α : Type} (xs : List α) (h : xs.length = 5) :
    (boolSelect xs [true, true, true, true, false]).length = 4 := by
  match xs, h with
  | [a, b, c, d, e], _ => rfl

/-- Scenario A chunk: with count budgeting, chunk size 5 and sub-budget 5,
a chunk drawn from a nonempty unused set is always trimmed (5 ≥ 5) to
exactly 4 kept draws. -/
lemma scenA_chunk (sl : Nat × Nat) (mask : List Bool) (rng : Rng)
    (mx : ℚ) (hmx : mx = 5)
    (hne : flatnonzeroSlice mask sl.1 sl.2 ≠ []) :
    ∃ g sz rng2,
      get_a_chunk_of_streamlines samplerA [] sl mask 0 mx rng
        = (.tuple5 g (g.map (fun x => x - sl.1)) sz false true, rng2)
      ∧ g.length = 4 := by
  subst hmx
  simp only [get_a_chunk_of_streamlines]
  rw [if_neg (fun hc => hne (List.length_eq_zero.mp hc))]
  have hchunk5 : samplerA.nb_streamlines_per_chunk = 5 := rfl
  have hclen : (np_choice (flatnonzeroSlice mask sl.1 sl.2)
      samplerA.nb_streamlines_per_chunk rng).1.length = 5 := by
    rw [np_choice_length, hchunk5]
  have hsizes : compute_and_adjust_batch_size samplerA []
      (np_choice (flatnonzeroSlice mask sl.1 sl.2)
        samplerA.nb_streamlines_per_chunk rng).1 = List.replicate 5 1 := by
    show List.map _ _ = _
    rw [List.map_const', hclen]
  rw [hsizes]
  rw [if_pos (by decide : (5:ℚ) ≤ 0 + (List.replicate 5 (1:ℚ)).sum)]
  have hsel : (cumsumFrom 0 (List.replicate 5 (1:ℚ))).map
      (fun c => decide (c < 5 - 0)) = [true, true, true, true, false] := by
    decide
  rw [hsel]
  exact ⟨_, _, _, rfl, boolSelect_ttttf _ hclen⟩

/-- Scenario A subject sampling: one chunk settles the subject (the trim
fires on the very first chunk), committing exactly 4 relative ids. -/
lemma scenA_sample (slices : List (Nat × Nat)) (subj : Nat) (mask : List Bool)
    (rng : Rng) (f : Nat) (mx : ℚ) (hmx : mx = 5)
    (hne : flatnonzeroSlice mask (slices.getD subj (0, 0)).1
      (slices.getD subj (0, 0)).2 ≠ []) :
    ∃ ids mask' rng',
      sample_streamlines_for_subj samplerA [] slices subj mx (f + 1) mask rng
        = .ok ids mask' rng' ∧ ids.length = 4 := by
  obtain ⟨g, sz, rng2, hchunk, hglen⟩ :=
    scenA_chunk (slices.getD subj (0, 0)) mask rng mx hmx hne
  refine ⟨g.map (fun x => x - (slices.getD subj (0, 0)).1), consume mask g, rng2,
    ?_, by simp [hglen]⟩
  rw [sample_streamlines_for_subj, sampleLoopGo]
  simp only [hchunk]
  simp

lemma cycleLoop_one (s : DWIMLBatchSampler) (L : List ℚ)
    (slices : List (Nat × Nat)) (sampled : List Nat) (mx : ℚ) (ifuel : Nat)
    (mask : List Bool) (rng : Rng) (batch : Batch) (m1 : List Bool) (r1 : Rng)
    (hsub : subjectLoop s L slices mx ifuel sampled mask rng = .ok (batch, m1, r1))
    (hnz : batch.length ≠ 0) :
    cycleLoop s L slices sampled mx ifuel 1 mask rng = .ok ([batch], m1, r1, true) := by
  show cycleLoop s L slices sampled mx ifuel (0 + 1) mask rng = _
  rw [cycleLoop, hsub]
  simp only [if_neg hnz]
  rw [cycleLoop]

/-- Scenario A cycle: one cycle over the selected singleton emits exactly
one batch holding one pair of exactly 4 relative ids. -/
lemma scenA_cycle (slices : List (Nat × Nat)) (c : Nat) (mask : List Bool)
    (rng : Rng) (f : Nat) (mx : ℚ) (hmx : mx = 5)
    (hne : flatnonzeroSlice mask (slices.getD c (0, 0)).1
      (slices.getD c (0, 0)).2 ≠ []) :
    ∃ ids m1 r1,
      cycleLoop samplerA [] slices [c] mx (f + 1) 1 mask rng
        = .ok ([[(c, ids)]], m1, r1, true) ∧ ids.length = 4 := by
  obtain ⟨ids, m1, r1, hsmp, hlen⟩ := scenA_sample slices c mask rng f mx hmx hne
  refine ⟨ids, m1, r1, ?_, hlen⟩
  have hsub : subjectLoop samplerA [] slices mx (f + 1) [c] mask rng
      = .ok ([(c, ids)], m1, r1) := by
    simp only [subjectLoop, hsmp]
  exact cycleLoop_one samplerA [] slices [c] mx (f + 1) mask rng
    [(c, ids)] m1 r1 hsub (by simp)

/-- Scenario A epoch invariant: whatever the mask, oracle and yielded
prefix, every batch the sampler emits holds exactly one subject pair of
exactly 4 relative ids. -/
lemma scenA_outer :
    ∀ (n : Nat) (mask : List Bool) (rng : Rng) (acc : List Batch),
      (∀ b ∈ acc, b.length = 1 ∧ ∀ p ∈ b, p.2.length = 4) →
      ∀ b ∈ (outerLoop samplerA poolA n mask rng acc).batches,
        b.length = 1 ∧ ∀ p ∈ b, p.2.length = 4 := by
  intro n
  induction n with
  | zero => intro mask rng acc hacc; exact hacc
  | succ n ih =>
    intro mask rng acc hacc
    simp only [outerLoop]
    by_cases h1 : (streamlinesPerSubj mask poolA.streamline_ids_per_subj).sum
        ≠ mask.count true
    · rw [if_pos h1]; exact hacc
    rw [if_neg h1]
    by_cases h2 : (streamlinesPerSubj mask poolA.streamline_ids_per_subj).sum = 0
    · rw [if_pos h2]; exact hacc
    rw [if_neg h2]
    obtain ⟨c, hsel, hclt, hcpos⟩ := scenA_select
      poolA.streamline_ids_per_subj.length
      (streamlinesPerSubj mask poolA.streamline_ids_per_subj) rng h2
    simp only [hsel]
    rw [show poolA.streamline_lengths_mm = ([] : List ℚ) from rfl]
    have hcf : (if optTruthy samplerA.cycles = true then samplerA.cycles.getD 0
        else n + 1) = 1 := rfl
    rw [hcf]
    have hc2 : c < poolA.streamline_ids_per_subj.length := by
      simpa [streamlinesPerSubj] using hclt
    have hne : flatnonzeroSlice mask
        (poolA.streamline_ids_per_subj.getD c (0, 0)).1
        (poolA.streamline_ids_per_subj.getD c (0, 0)).2 ≠ [] := by
      rw [streamlinesPerSubj] at hcpos
      rw [List.getD_eq_getElem _ 0 (by simpa [streamlinesPerSubj] using hclt)] at hcpos
      rw [List.getElem_map] at hcpos
      rw [List.getD_eq_getElem poolA.streamline_ids_per_subj (0, 0) hc2]
      exact List.ne_nil_of_length_pos hcpos
    obtain ⟨ids, m1, r1, hcy, hidlen⟩ := scenA_cycle
      poolA.streamline_ids_per_subj c mask (rngTail rng) n
      ((samplerA.batch_size : ℚ) / ((1 : ℕ) : ℚ)) (by norm_num [samplerA]) hne
    split
    · rename_i e heq
      rw [hcy] at heq
      exact Except.noConfusion heq
    rename_i bs m r ranOut heq
    rw [hcy] at heq
    have heq' := Except.ok.inj heq
    simp only [Prod.mk.injEq] at heq'
    obtain ⟨rfl, rfl, rfl, rfl⟩ := heq'
    rw [if_neg (by decide)]
    refine ih m1 r1 (acc ++ [[(c, ids)]]) ?_
    intro b hb
    rcases List.mem_append.mp hb with hb | hb
    · exact hacc b hb
    · have hb' : b = [(c, ids)] := by simpa using hb
      subst hb'
      refine ⟨rfl, ?_⟩
      intro p hp
      have hp' : p = (c, ids) := by simpa using hp
      subst hp'
      exact hidlen

/-! ## Helpers for construction and budget statements -/

lemma sum_map_one (l : List Nat) : (l.map (fun _ => (1 : ℚ))).sum = l.length := by
  induction l with
  | nil => simp
  | cons x xs ih =>
    simp only [List.map_cons, List.sum_cons, ih, List.length_cons]
    push_cast
    ring

/-- Constructing with count budgeting never rejects a chunk-size mismatch:
the chunk size is silently overridden with `batch_size` (lines 86-90 and
104-105), and `torch.manual_seed` is called on the global torch state. -/
lemma init_count_mode_eq (b : Int) (chunk seed : Nat) (t : TorchState)
    (hb : 0 < b) :
    DWIMLBatchSampler_init b "nb_streamlines" chunk seed none none t
      = (.ok { batch_size := b.toNat
               batch_size_units := .nb_streamlines
               nb_streamlines_per_chunk := b.toNat
               nb_subjects_per_batch := none
               cycles := none
               rng := seed }, torch_manual_seed seed t) := by
  rw [DWIMLBatchSampler_init]
  rw [if_neg (by omega : ¬ b ≤ 0)]
  rw [if_neg (by simp :
    ¬ ¬(("nb_streamlines" : String) = "nb_streamlines"
        ∨ ("nb_streamlines" : String) = "length_mm"))]
  rw [if_neg (by decide : ¬ (optTruthy none && !optTruthy none) = true)]
  rfl

lemma init_fst_indep (b : Int) (u : String) (ch seed : Nat)
    (nbS cy : Option Nat) (t t' : TorchState) :
    (DWIMLBatchSampler_init b u ch seed nbS cy t).1
      = (DWIMLBatchSampler_init b u ch seed nbS cy t').1 := by
  rw [DWIMLBatchSampler_init, DWIMLBatchSampler_init]
  split_ifs <;> rfl

/-! ## Claim theorems -/

/-- C1: the claim states that when the chunk sampler is invoked for a
subject whose entire slice is already used, the condition is soft: "no
supply left" is reported and only that subject's contribution ends, without
an exception.  The code instead takes the early return at line 388, which
produces a **4-tuple**, while the caller at lines 312-317 unpacks **five**
names, raising `ValueError` and aborting the epoch.  Evaluation at a
failing input: length mode, budget 100, chunk 2, one subject with two
streamlines of length 1 — the subject is exhausted after two chunks within
a single round, the third chunk call sees the all-used slice, and the whole
iteration dies with the `ValueError` before yielding anything. -/
theorem C1_exhausted_slice_raises_valueError :
    samplerIter samplerC1 poolC1 10 [] = .failed .valueError [] := by decide

/-- C2 counterexample: with count budget 5 over a single subject holding 3
streamlines, the first chunk draws 5 candidates **with replacement** from 3
available ids and trims them to 4 kept draws, so the first yielded batch
already repeats a global id; the multiset of global ids across the epoch's
batches therefore has a duplicate, contradicting the claim. -/
theorem C2_counterexample_duplicate_in_batch :
    hasDupNat (epochGlobalIds poolC2.streamline_ids_per_subj
      (samplerIter samplerC2 poolC2 2 [])) = true := by decide

/-- C2 (amended): the no-reuse invariant holds at the granularity of pairs
and batches: for every configuration, pool, fuel and oracle stream, the
global-id sets of distinct yielded batches are pairwise disjoint, and
within any one batch the global-id sets of distinct `(subject, ids)` pairs
are pairwise disjoint.  A global id can only repeat as a literal duplicate
inside a single pair's list, coming from one chunk drawn with
replacement. -/
theorem C2_no_reuse_across_pairs_and_batches (s : DWIMLBatchSampler)
    (pool : MultisubjectSubset) (fuel : Nat) (rng : Rng) :
    List.Pairwise (batchDisj pool.streamline_ids_per_subj)
      (samplerIter s pool fuel rng).batches ∧
    ∀ b ∈ (samplerIter s pool fuel rng).batches,
      List.Pairwise (pairDisj pool.streamline_ids_per_subj) b := by
  have h := outerLoop_spec s pool fuel
    (List.replicate pool.total_nb_streamlines true) rng []
    (by simp) List.Pairwise.nil (by simp)
  exact ⟨h.1, h.2⟩

/-- C3: the claim states that every valid configuration yields a finite
epoch that terminates once all subjects reach zero remaining supply, the
assembler breaking out of the cycle loop when a batch has no nonzero
contribution.  The code's break tests `len(batch_ids_per_subj) == 0`
(line 270), but a pair is appended for **every** sampled subject, empty or
not (line 261), so the break never fires once subjects are selected.  At
the failing input (length budget 1, one subject of length 50, cycles 1)
every round trims the chunk to nothing, consumes nothing, and yields the
batch `[(0, [])]` again: the epoch never reaches the clean exhaustion exit,
for any amount of fuel. -/
theorem C3_small_budget_epoch_never_terminates :
    ∀ n : Nat, (samplerIter samplerC3 poolC3 n []).isFinished = false := by
  have hstep : ∀ (n : Nat) (acc : List Batch),
      outerLoop samplerC3 poolC3 (n + 1) [true] [] acc
        = outerLoop samplerC3 poolC3 n [true] [] (acc ++ [[(0, [])]]) := by
    intro n acc
    rfl
  have hmain : ∀ (n : Nat) (acc : List Batch),
      (outerLoop samplerC3 poolC3 n [true] [] acc).isFinished = false := by
    intro n
    induction n with
    | zero => intro acc; rfl
    | succ n ih =>
      intro acc
      rw [hstep]
      exact ih _
  intro n
  exact hmain n []

/-- C4 counterexample: in Scenario A (slices `[0,10)` and `[10,15)`, count
budget 5, one subject per batch, one cycle), the very first yielded batch —
drawn while the touched subject still had 10 ≥ 5 unused streamlines —
contains exactly **4** relative ids, not the 5 the claim requires, because
the trim condition `current + chunk >= max` fires at equality and the
strictly-below cumulative mask keeps only `batch_size - 1` draws. -/
theorem C4_counterexample_first_batch_has_four_ids :
    (samplerIter samplerA poolA 1 []).batches = [[(0, [0, 0, 0, 0])]] := by
  decide

/-- C4 (amended): in Scenario A every yielded batch touches exactly one
subject and contains exactly **4** relative ids (the batch budget minus
one), for every fuel and every oracle stream; batches never shrink below 4
ids while supply remains, because chunks are drawn with replacement. -/
theorem C4_scenarioA_batches_one_subject_four_ids (fuel : Nat) (rng : Rng)
    (b : Batch) (hb : b ∈ (samplerIter samplerA poolA fuel rng).batches) :
    b.length = 1 ∧ ∀ p ∈ b, p.2.length = 4 :=
  scenA_outer fuel (List.replicate poolA.total_nb_streamlines true) rng []
    (by simp) b hb

theorem C4_scenarioA_witness :
    ([(0, [0, 0, 0, 0])] : Batch).length = 1 ∧
      ∀ p ∈ ([(0, [0, 0, 0, 0])] : Batch), p.2.length = 4 :=
  C4_scenarioA_batches_one_subject_four_ids 1 [] [(0, [0, 0, 0, 0])] (by decide)

/-- C5: whenever the subject's realized cost plus the drawn chunk's cost
reaches or exceeds the sub-budget, `_get_a_chunk_of_streamlines` trims the
chunk to the longest head run (in draw order) whose cumulative cost stays
strictly below the remaining allowance `max - current`, reports the trimmed
cost, and sets the budget-reached flag. -/
theorem C5_trim_to_longest_strict_head_run (s : DWIMLBatchSampler)
    (L : List ℚ) (st en : Nat) (mask : List Bool) (cur mx : ℚ) (rng : Rng)
    (hnn : ∀ l ∈ L, 0 ≤ l)
    (hne : flatnonzeroSlice mask st en ≠ [])
    (hover : mx ≤ cur + (compute_and_adjust_batch_size s L
      (np_choice (flatnonzeroSlice mask st en)
        s.nb_streamlines_per_chunk rng).1).sum) :
    get_a_chunk_of_streamlines s L (st, en) mask cur mx rng
      = (let chosen := (np_choice (flatnonzeroSlice mask st en)
            s.nb_streamlines_per_chunk rng).1
         let sizes := compute_and_adjust_batch_size s L chosen
         let K := ((cumsumFrom 0 sizes).takeWhile
            (fun t => decide (t < mx - cur))).length
         (.tuple5 (chosen.take K) ((chosen.take K).map (fun x => x - st))
            ((sizes.take K).sum) false true,
          (np_choice (flatnonzeroSlice mask st en)
            s.nb_streamlines_per_chunk rng).2)) := by
  have hsnn : ∀ x ∈ compute_and_adjust_batch_size s L
      (np_choice (flatnonzeroSlice mask st en)
        s.nb_streamlines_per_chunk rng).1, 0 ≤ x := by
    rw [compute_eq_map_sizeOf]
    intro x hx
    obtain ⟨y, -, rfl⟩ := List.mem_map.mp hx
    exact sizeOfId_nonneg s L y hnn
  have hlen : (np_choice (flatnonzeroSlice mask st en)
      s.nb_streamlines_per_chunk rng).1.length
      = (compute_and_adjust_batch_size s L
          (np_choice (flatnonzeroSlice mask st en)
            s.nb_streamlines_per_chunk rng).1).length := by
    rw [compute_eq_map_sizeOf, List.length_map]
  simp only [get_a_chunk_of_streamlines]
  rw [if_neg (fun hc => hne (List.length_eq_zero.mp hc))]
  rw [if_pos hover]
  rw [boolSelect_cumsum_eq_take _ _ 0 (mx - cur) hsnn hlen]
  rw [boolSelect_cumsum_eq_take _ _ 0 (mx - cur) hsnn rfl]

/-- C5 witness, Scenario C: length mode, lengths `[50, 60, 5]`, sub-budget
100, chunk drawn in order `[0, 1, 2]` — cumulative costs `[50, 110, 115]`
trim to the single id `0` with realized cost 50 and the flag set. -/
theorem C5_scenarioC_witness :
    (∀ l ∈ ([50, 60, 5] : List ℚ), 0 ≤ l) ∧
    get_a_chunk_of_streamlines samplerC5 [50, 60, 5] (0, 3)
      [true, true, true] 0 100 [0, 1, 2]
      = (.tuple5 [0] [0] 50 false true, []) := by
  refine ⟨by norm_num, ?_⟩
  have h := C5_trim_to_longest_strict_head_run samplerC5 [50, 60, 5] 0 3
    [true, true, true] 0 100 [0, 1, 2] (by norm_num) (by decide) (by decide)
  rw [h]
  decide

/-- C6 counterexample: constructing with count budgeting and a chunk size
(3) different from the batch budget (5) does **not** fail: the constructor
returns a sampler (the mismatch is only warned about and the chunk size
overridden), contradicting the claim that this is a construction-time
configuration error. -/
theorem C6_counterexample_mismatch_constructs_ok :
    exceptIsOk (DWIMLBatchSampler_init 5 "nb_streamlines" 3 0 none none
      ⟨none⟩).1 = true := by decide

/-- C6 (amended): with count budgeting and a positive budget, construction
always succeeds whatever chunk size is passed: the mismatch is logged as a
warning and ignored, and the resulting sampler's chunk size is overridden
with the batch budget.  (The other validations — non-positive budget,
invalid unit, cycles without a subject cap — do raise at construction.) -/
theorem C6_count_mismatch_warns_and_overrides (b : Int) (chunk seed : Nat)
    (t : TorchState) (hb : 0 < b) :
    DWIMLBatchSampler_init b "nb_streamlines" chunk seed none none t
      = (.ok { batch_size := b.toNat
               batch_size_units := .nb_streamlines
               nb_streamlines_per_chunk := b.toNat
               nb_subjects_per_batch := none
               cycles := none
               rng := seed }, torch_manual_seed seed t) :=
  init_count_mode_eq b chunk seed t hb

theorem C6_witness :
    DWIMLBatchSampler_init 5 "nb_streamlines" 3 0 none none ⟨none⟩
      = (.ok ⟨5, .nb_streamlines, 5, none, none, 0⟩, ⟨some 0⟩) :=
  C6_count_mismatch_warns_and_overrides 5 3 0 ⟨none⟩ (by norm_num)

/-- C7: two sampler instances constructed from identical configuration
(including the seed) over the same pool produce identical batch sequences
when iterated, even when the second is constructed after the first has
mutated the global torch state: all randomness used by the iteration flows
through the instance-owned generator derived from the seed at
construction. -/
theorem C7_identical_config_identical_batches (b : Int) (u : String)
    (ch seed : Nat) (nbS cy : Option Nat) (pool : MultisubjectSubset)
    (fuel : Nat) (t : TorchState) :
    (construct_and_iter b u ch seed nbS cy pool fuel t).1
      = (construct_and_iter b u ch seed nbS cy pool fuel
          ((construct_and_iter b u ch seed nbS cy pool fuel t).2)).1 := by
  simp only [construct_and_iter]
  rw [init_fst_indep b u ch seed nbS cy t
    ((DWIMLBatchSampler_init b u ch seed nbS cy t).2)]

/-- C8: per round and per selected subject, with sub-budget
`mx = batch_size / nb_subjects`: in count mode the subject's realized
contribution never exceeds `⌈mx⌉` sequences (in fact it stays strictly
below `mx`), and in length mode the realized cost is strictly below `mx`
itself — a fortiori strictly below `mx` plus the cost of any oversampled
id at the trim boundary. -/
theorem C8_budget_respect_per_round (s : DWIMLBatchSampler) (L : List ℚ)
    (st en : Nat) (mx : ℚ) (fuel : Nat) (mask : List Bool) (rng : Rng)
    (out : List Nat) (m' : List Bool) (r' : Rng)
    (hpos : 0 < mx) (hnn : ∀ l ∈ L, 0 ≤ l)
    (hok : sampleLoopGo s L (st, en) mx fuel mask 0 [] rng = .ok out m' r') :
    (s.batch_size_units = .nb_streamlines → out.length ≤ ⌈mx⌉₊) ∧
    (s.batch_size_units = .length_mm → roundCost s L st out < mx) := by
  obtain ⟨delta, hd, hcost⟩ := sampleLoopGo_cost s L st en mx hnn fuel mask
    0 [] rng out m' r' hok hpos
  rw [List.nil_append] at hd
  subst hd
  rw [zero_add] at hcost
  constructor
  · intro hu
    have hone : roundCost s L st out = out.length := by
      unfold roundCost
      rw [List.map_congr_left (fun d _ => by simp [sizeOfId, hu] :
        ∀ d ∈ out, sizeOfId s L (d + st) = (fun _ => (1:ℚ)) d)]
      exact sum_map_one out
    rw [hone] at hcost
    have h2 : (out.length : ℚ) < (⌈mx⌉₊ : ℚ) := lt_of_lt_of_le hcost (Nat.le_ceil mx)
    exact le_of_lt (by exact_mod_cast h2)
  · intro _
    exact hcost

/-- C8 witness: count mode, budget 5, one subject with 3 streamlines — the
round commits 4 draws, within `⌈5⌉ = 5`. -/
theorem C8_witness :
    ((0:ℚ) < 5) ∧ ([0, 0, 0, 0] : List Nat).length ≤ ⌈(5:ℚ)⌉₊ := by
  refine ⟨by norm_num, ?_⟩
  have h := C8_budget_respect_per_round samplerC2 [] 0 3 5 3
    [true, true, true] [] [0, 0, 0, 0] [false, true, true] []
    (by norm_num) (by simp) (by decide)
  exact h.1 rfl

/-- C9 counterexample: with length budget 1 over a single subject of
length 50, every round's chunk trims to nothing, yet the subject's pair is
still appended, so the sampler yields batches containing the pair
`(0, [])` with an empty relative-ids list — the claim that empty pairs are
omitted is false. -/
theorem C9_counterexample_empty_pair_included :
    containsEmptyPair (samplerIter samplerC3 poolC3 2 []) = true := by decide

/-- C9 (amended): what the code omits is empty **batches**, not empty
pairs: every yielded batch is a nonempty list of `(subject, ids)` pairs
(the `len == 0` guard precedes the yield), but a selected subject with an
empty contribution still appears as a pair with an empty list. -/
theorem C9_yielded_batches_nonempty (s : DWIMLBatchSampler)
    (pool : MultisubjectSubset) (fuel : Nat) (rng : Rng) (b : Batch)
    (hb : b ∈ (samplerIter s pool fuel rng).batches) : b ≠ [] :=
  outerLoop_batches_ne_nil s pool fuel
    (List.replicate pool.total_nb_streamlines true) rng [] (by simp) b hb

theorem C9_witness : ([(0, [0, 0, 0, 0])] : Batch) ≠ [] :=
  C9_yielded_batches_nonempty samplerC2 poolC2 2 [] [(0, [0, 0, 0, 0])]
    (by decide)

/-- C10: besides seeding its own numpy generator, the constructor calls
`torch.manual_seed(seed)` (line 118), mutating the process-global torch
RNG state; constructing a second sampler therefore overwrites the global
torch seed set by the first. -/
theorem C10_construction_overwrites_torch_seed (b : Int) (ch s1 s2 : Nat)
    (t : TorchState) (hb : 0 < b) :
    (DWIMLBatchSampler_init b "nb_streamlines" ch s1 none none
        t).2.manual_seed_value = some s1 ∧
    (DWIMLBatchSampler_init b "nb_streamlines" ch s2 none none
        ((DWIMLBatchSampler_init b "nb_streamlines" ch s1 none none
          t).2)).2.manual_seed_value = some s2 := by
  rw [init_count_mode_eq b ch s1 t hb]
  rw [init_count_mode_eq b ch s2 (torch_manual_seed s1 t) hb]
  exact ⟨rfl, rfl⟩

theorem C10_witness :
    ((0:Int) < 5) ∧
    ((DWIMLBatchSampler_init 5 "nb_streamlines" 3 1 none none
        ⟨none⟩).2.manual_seed_value = some 1 ∧
      (DWIMLBatchSampler_init 5 "nb_streamlines" 3 2 none none
        ((DWIMLBatchSampler_init 5 "nb_streamlines" 3 1 none none
          ⟨none⟩).2)).2.manual_seed_value = some 2) :=
  ⟨by norm_num,
    C10_construction_overwrites_torch_seed 5 3 1 2 ⟨none⟩ (by norm_num)⟩

end DwiMl
